import Mathlib

/-!
# A forwarding HTTP proxy (`http.go`): header sanitising, `X-Forwarded-For`, relaying

Shallow embedding of `hopHeaders`, `copyHeader`, `delHopHeaders`,
`appendHostToXForwardHeader` and `proxy.ServeHTTP`, together with the few
operations of Go's standard library they call (`http.Header` methods,
`textproto.CanonicalMIMEHeaderKey`, `strings.Join`, `net.SplitHostPort`,
`http.Error`, `io.Copy`, `log.Fatal`).

Strings are Lean strings; every character the library functions below test
for is ASCII, so working on characters rather than UTF-8 bytes gives the same
result (a byte of a multi-byte character is never an ASCII byte).
-/

namespace HttpGo

/-! ## `http.Header`: a Go `map[string][]string` -/

/-- A Go map from header names to value lists: finitely many entries with pairwise
distinct keys.  The order of `entries` carries no meaning (Go maps are unordered). -/
structure Header where
  entries : List (String × List String)
  nodup : (entries.map Prod.fst).Nodup

/-- The empty map, Go's `make(http.Header)`. -/
def Header.empty : Header := ⟨[], List.nodup_nil⟩

/-- The keys stored in the map. -/
def Header.keys (h : Header) : List String := h.entries.map Prod.fst

/-- The raw map index `v, ok := h[k]`: `none` when the key is absent. -/
def Header.get (h : Header) (k : String) : Option (List String) :=
  h.entries.lookup k

/-- The raw map index `h[k]` without the `ok` flag: Go yields the nil slice for an absent key. -/
def Header.values (h : Header) (k : String) : List String :=
  (h.get k).getD []

/-- Go's builtin `delete(h, k)`. -/
def Header.delete (h : Header) (k : String) : Header :=
  ⟨h.entries.filter (fun e => e.1 != k),
   h.nodup.sublist ((List.filter_sublist h.entries).map Prod.fst)⟩

/-- The map assignment `h[k] = vv`. -/
def Header.assign (h : Header) (k : String) (vv : List String) : Header :=
  ⟨(k, vv) :: (h.delete k).entries, by
    have hk : k ∉ (h.delete k).entries.map Prod.fst := by
      simp [Header.delete, List.mem_map, List.mem_filter]
    simpa [List.nodup_cons] using And.intro hk (h.delete k).nodup⟩

/-! ## `textproto.CanonicalMIMEHeaderKey` -/

/-- The bytes allowed in a header field name (RFC 7230 token characters):
digits, ASCII letters and the fifteen marks ! # $ % & ' * + - . ^ _ (backquote) | ~ . -/
def validHeaderFieldByte (c : Char) : Bool :=
  let n := c.toNat
  (48 ≤ n && n ≤ 57) || (97 ≤ n && n ≤ 122) || (65 ≤ n && n ≤ 90) ||
    [33, 35, 36, 37, 38, 39, 42, 43, 45, 46, 94, 95, 96, 124, 126].contains n

/-- The body of the canonicalising loop of `canonicalMIMEHeaderKey`: the byte written
for `c`, with `toLower = 'a' - 'A' = 32`. -/
def canonStep (upper : Bool) (c : Char) : Char :=
  if upper && 'a' ≤ c && c ≤ 'z' then Char.ofNat (c.toNat - 32)
  else if !upper && 'A' ≤ c && c ≤ 'Z' then Char.ofNat (c.toNat + 32)
  else c

/-- The canonicalising loop of `canonicalMIMEHeaderKey`: the first letter and every
letter after a dash are upper-cased, every other letter is lower-cased.  `upper` is
the loop variable of the same name. -/
def canonLoop : Bool → List Char → List Char
  | _, [] => []
  | upper, c :: rest =>
    let c1 := canonStep upper c
    c1 :: canonLoop (c1 == '-') rest

/-- The slow path `canonicalMIMEHeaderKey(a)`: a key containing a byte that is not a
token character (a space included) is returned unchanged, any other key is rewritten
by the canonicalising loop. -/
def canonicalMIMEHeaderKey (a : List Char) : List Char :=
  if a.all validHeaderFieldByte then canonLoop true a else a

/-- The scanning loop of `CanonicalMIMEHeaderKey(s)` over the remaining bytes `rest`:
it returns `s` itself at the first invalid byte or at the end, and takes the slow path
at the first letter in the wrong case. -/
def canonScan (s : List Char) : Bool → List Char → List Char
  | _, [] => s
  | upper, c :: rest =>
    if !validHeaderFieldByte c then s
    else if upper && 'a' ≤ c && c ≤ 'z' then canonicalMIMEHeaderKey s
    else if !upper && 'A' ≤ c && c ≤ 'Z' then canonicalMIMEHeaderKey s
    else canonScan s (c == '-') rest

/-- Go's `textproto.CanonicalMIMEHeaderKey` (also `http.CanonicalHeaderKey`). -/
def CanonicalMIMEHeaderKey (s : String) : String :=
  String.mk (canonScan s.data true s.data)

/-- Go's `Header.Del(key)`: `delete(h, CanonicalMIMEHeaderKey(key))`. -/
def Header.Del (h : Header) (key : String) : Header :=
  h.delete (CanonicalMIMEHeaderKey key)

/-- Go's `Header.Set(key, value)`: `h[CanonicalMIMEHeaderKey(key)] = []string{value}`. -/
def Header.Set (h : Header) (key value : String) : Header :=
  h.assign (CanonicalMIMEHeaderKey key) [value]

/-- Go's `Header.Add(key, value)`: with `key = CanonicalMIMEHeaderKey(key)`,
`h[key] = append(h[key], value)`. -/
def Header.Add (h : Header) (key value : String) : Header :=
  let key := CanonicalMIMEHeaderKey key
  h.assign key (h.values key ++ [value])

/-- Go's `strings.Join(elems, sep)`. -/
def strings.Join (elems : List String) (sep : String) : String :=
  match elems with
  | [] => ""
  | a :: rest => rest.foldl (fun acc s => acc ++ sep ++ s) a

/-! ## The functions of `http.go` on headers -/

/-- The variable `hopHeaders` (http.go, lines 16-25). -/
def hopHeaders : List String :=
  ["Connection", "Keep-Alive", "Proxy-Authenticate", "Proxy-Authorization",
   "Te", "Trailers", "Transfer-Encoding", "Upgrade"]

/-- The function `copyHeader(dst, src)` (http.go, lines 27-33); the map `src` is ranged
over in the order of its entries. -/
def copyHeader (dst src : Header) : Header :=
  src.entries.foldl (fun d kv => kv.2.foldl (fun d v => d.Add kv.1 v) d) dst

/-- The function `delHopHeaders(header)` (http.go, lines 35-39). -/
def delHopHeaders (header : Header) : Header :=
  hopHeaders.foldl (fun hd h => hd.Del h) header

/-- The function `appendHostToXForwardHeader(header, host)` (http.go, lines 41-49). -/
def appendHostToXForwardHeader (header : Header) (host : String) : Header :=
  let host :=
    match header.get "X-Forwarded-For" with
    | some prior => strings.Join prior ", " ++ ", " ++ host
    | none => host
  header.Set "X-Forwarded-For" host

/-! ## `net.SplitHostPort` -/

deriving instance DecidableEq for Except

/-- The reasons for which `net.SplitHostPort` fails (the `Err` text of its `AddrError`). -/
inductive AddrError
  | missingPort
  | tooManyColons
  | missingCloseBracket
  | unexpectedOpenBracket
  | unexpectedCloseBracket
deriving DecidableEq, Repr

/-- Index of the first occurrence of `c` (`bytealg.IndexByteString`), `none` for Go's `-1`. -/
def indexByte : List Char → Char → Option Nat
  | [], _ => none
  | x :: xs, c => if x = c then some 0 else (indexByte xs c).map (· + 1)

/-- Index of the last occurrence of `c` (`bytealg.LastIndexByteString`), `none` for Go's `-1`. -/
def lastIndexByte : List Char → Char → Option Nat
  | [], _ => none
  | x :: xs, c =>
    match lastIndexByte xs c with
    | some i => some (i + 1)
    | none => if x = c then some 0 else none

/-- Go's `net.SplitHostPort(hostport)`: host and port of `host:port`, `[host]:port`. -/
def net.SplitHostPort (hostport : String) : Except AddrError (String × String) :=
  let s := hostport.data
  match lastIndexByte s ':' with
  | none => .error .missingPort
  | some i =>
    let finish (host : List Char) (j k : Nat) : Except AddrError (String × String) :=
      if (indexByte (s.drop j) '[').isSome then .error .unexpectedOpenBracket
      else if (indexByte (s.drop k) ']').isSome then .error .unexpectedCloseBracket
      else .ok (String.mk host, String.mk (s.drop (i + 1)))
    if s.head? = some '[' then
      match indexByte s ']' with
      | none => .error .missingCloseBracket
      | some e =>
        if e + 1 = s.length then .error .missingPort
        else if e + 1 = i then finish ((s.take e).drop 1) 1 (e + 1)
        else if s.get? (e + 1) = some ':' then .error .tooManyColons
        else .error .missingPort
    else
      let host := s.take i
      if (indexByte host ':').isSome then .error .tooManyColons
      else finish host 0 0

/-! ## Requests, responses and the response writer -/

/-- The fields of Go's `url.URL` that a proxied request carries. -/
structure URL where
  Scheme : String
  Host : String
  Path : String
  RawQuery : String
deriving DecidableEq, Repr

/-- The fields of Go's `http.Request` the handler reads or writes, and those the
outbound call is built from. -/
structure Request where
  Method : String
  URL : URL
  Proto : String
  Header : Header
  Body : List UInt8
  Host : String
  RemoteAddr : String
  RequestURI : String

/-- The fields of Go's `http.Response` the handler reads. -/
structure Response where
  Status : String
  StatusCode : Nat
  Header : Header
  Body : List UInt8

/-- The observable state of an `http.ResponseWriter`: the header map returned by
`Header()`, the status code once `WriteHeader` has run together with the copy of the
header map taken at that moment (the headers that go on the wire), and the body bytes
written so far. -/
structure ResponseWriter where
  header : Header
  code : Option Nat
  sent : Header
  body : List UInt8

/-- The writer the server hands to a handler: empty header map, nothing written. -/
def ResponseWriter.fresh : ResponseWriter :=
  { header := Header.empty, code := none, sent := Header.empty, body := [] }

/-- Go's `ResponseWriter.WriteHeader(code)`: the first call fixes the status and the
headers sent; a later call is ignored. -/
def ResponseWriter.WriteHeader (w : ResponseWriter) (code : Nat) : ResponseWriter :=
  match w.code with
  | some _ => w
  | none => { w with code := some code, sent := w.header }

/-- Go's `ResponseWriter.Write(p)`: writes status 200 first if no status was written. -/
def ResponseWriter.Write (w : ResponseWriter) (p : List UInt8) : ResponseWriter :=
  let w := match w.code with
    | some _ => w
    | none => w.WriteHeader 200
  { w with body := w.body ++ p }

/-- The UTF-8 bytes of a string. -/
def utf8Bytes (s : String) : List UInt8 :=
  s.data.flatMap String.utf8EncodeChar

/-- Go's `http.Error(w, error, code)`: two headers are set, the status is written, and
the message followed by a newline is the body.  (Recent Go versions first delete
`Content-Length`, which the fresh writer of a handler does not hold.) -/
def http.Error (w : ResponseWriter) (error : String) (code : Nat) : ResponseWriter :=
  let h := w.header.Set "Content-Type" "text/plain; charset=utf-8"
  let h := h.Set "X-Content-Type-Options" "nosniff"
  let w := { w with header := h }
  let w := w.WriteHeader code
  w.Write (utf8Bytes (error ++ "\n"))

/-- The copying loop of Go's `io.Copy(dst, src)` with a buffer of `buf` bytes: read up
to `buf` bytes, write them, until the source is exhausted.  The first argument bounds
the number of iterations. -/
def ioCopyLoop (buf : Nat) : Nat → ResponseWriter → List UInt8 → ResponseWriter
  | 0, w, _ => w
  | fuel + 1, w, src =>
    if src.isEmpty then w
    else ioCopyLoop buf fuel (w.Write (src.take buf)) (src.drop buf)

/-- Go's `io.Copy(wr, body)` for a body that is read without error; the buffer has
`32 * 1024` bytes, and a body of `n` bytes needs at most `n` iterations. -/
def ioCopy (w : ResponseWriter) (src : List UInt8) : ResponseWriter :=
  ioCopyLoop 32768 src.length w src

/-! ## `proxy.ServeHTTP` -/

/-- A line written through the `log` package. -/
inductive LogEntry
  | request (remoteAddr method : String) (url : URL)
  | message (msg : String)
  | status (remoteAddr status : String)
  | fatal (err : String)

/-- What one run of the handler leaves behind. -/
structure Outcome where
  /-- State of the response writer. -/
  wr : ResponseWriter
  /-- State of the request object (the handler mutates it in place). -/
  req : Request
  /-- Arguments of the calls of `client.Do`, in order. -/
  calls : List Request
  /-- Lines logged. -/
  log : List LogEntry
  /-- Exit code when the process was terminated (`log.Fatal` calls `os.Exit(1)`). -/
  exitCode : Option Nat
  /-- Whether the deferred `resp.Body.Close()` ran. -/
  bodyClosed : Bool

/-- Lines 68-74 of `proxy.ServeHTTP`: the request as it is handed to `client.Do`. -/
def outboundRequest (req : Request) : Request :=
  let req := { req with RequestURI := "" }
  let req := { req with Header := delHopHeaders req.Header }
  match net.SplitHostPort req.RemoteAddr with
  | .ok (clientIP, _) =>
    { req with Header := appendHostToXForwardHeader req.Header clientIP }
  | .error _ => req

/-- The method `(p *proxy) ServeHTTP(wr, req)` (http.go, lines 54-90).  `client` stands
for `client.Do` of the zero `http.Client` built at line 64: what that call returns for
the outbound request, a response or the error text.  The response is the one the client
ends with: the zero client follows redirects, so it need not be the first answer of the
origin addressed. -/
def proxy.ServeHTTP (client : Request → Except String Response)
    (wr : ResponseWriter) (req : Request) : Outcome :=
  let log0 := [LogEntry.request req.RemoteAddr req.Method req.URL]
  if req.URL.Scheme ≠ "http" ∧ req.URL.Scheme ≠ "https" then
    let msg := "unsupported protocal scheme " ++ req.URL.Scheme
    { wr := http.Error wr msg 400, req := req, calls := [],
      log := log0 ++ [LogEntry.message msg], exitCode := none, bodyClosed := false }
  else
    let req := outboundRequest req
    match client req with
    | .error err =>
      { wr := http.Error wr "Server Error" 500, req := req, calls := [req],
        log := log0 ++ [LogEntry.fatal err], exitCode := some 1, bodyClosed := false }
    | .ok resp =>
      let respHeader := delHopHeaders resp.Header
      let wr := { wr with header := copyHeader wr.header respHeader }
      let wr := wr.WriteHeader resp.StatusCode
      let wr := ioCopy wr resp.Body
      { wr := wr, req := req, calls := [req],
        log := log0 ++ [LogEntry.status req.RemoteAddr resp.Status],
        exitCode := none, bodyClosed := true }

/-- The serving loop behind `http.ListenAndServe(*addr, handler)` (http.go, line 99),
reduced to the requests it dispatches, here one after the other, each with a fresh
response writer.  A request is dispatched only while the process is running. -/
def ListenAndServe (client : Request → Except String Response) : List Request → List Outcome
  | [] => []
  | req :: rest =>
    let out := proxy.ServeHTTP client ResponseWriter.fresh req
    match out.exitCode with
    | some _ => [out]
    | none => out :: ListenAndServe client rest

/-! ## Notions used to state the specification -/

/-- ASCII lower-casing of one character. -/
def asciiLower (c : Char) : Char :=
  if 'A' ≤ c && c ≤ 'Z' then Char.ofNat (c.toNat + 32) else c

/-- Case-insensitive equality of header names (ASCII case folding). -/
def AsciiEqualFold (a b : String) : Prop :=
  a.data.map asciiLower = b.data.map asciiLower

instance (a b : String) : Decidable (AsciiEqualFold a b) := by
  unfold AsciiEqualFold; infer_instance

/-- The eight hop-by-hop names as the specification lists them. -/
def specHopNames : List String :=
  ["Connection", "Keep-Alive", "Proxy-Authenticate", "Proxy-Authorization",
   "TE", "Trailers", "Transfer-Encoding", "Upgrade"]

/-- Every key stored in the map is in canonical form, as the keys of the header maps
that `net/http` builds from the wire are. -/
def Header.Canonical (h : Header) : Prop :=
  ∀ k ∈ h.keys, CanonicalMIMEHeaderKey k = k

instance (h : Header) : Decidable h.Canonical := by
  unfold Header.Canonical; infer_instance

/-! ## Concrete inputs used below -/

/-- A header map that stores `Connection` in lower case, as only a direct map
assignment can produce. -/
def hdrLowerConnection : Header :=
  ⟨[("connection", ["close"]), ("X-Custom", ["v"])], by decide⟩

/-- A header map with canonical keys, three of them hop-by-hop. -/
def hdrMixed : Header :=
  ⟨[("Connection", ["keep-alive"]), ("Keep-Alive", ["timeout=5"]),
    ("X-Custom", ["v", "w"]), ("Te", ["trailers"])], by decide⟩

/-- A header map without hop-by-hop names and without `X-Forwarded-For`. -/
def hdrPlain : Header :=
  ⟨[("Accept", ["*/*"]), ("X-Custom", ["v"])], by decide⟩

/-- A header map with one earlier hop recorded. -/
def hdrPriorXFF : Header :=
  ⟨[("X-Forwarded-For", ["10.0.0.1"]), ("Accept", ["*/*"])], by decide⟩

/-- A header map in which `X-Forwarded-For` is present with an empty value list. -/
def hdrEmptyXFF : Header :=
  ⟨[("X-Forwarded-For", [])], by decide⟩

/-- A `GET` request for `scheme://host/` from the peer `remote`. -/
def getRequest (scheme host remote : String) (header : Header) : Request :=
  { Method := "GET", URL := ⟨scheme, host, "/", ""⟩, Proto := "HTTP/1.1",
    Header := header, Body := [], Host := host, RemoteAddr := remote,
    RequestURI := scheme ++ "://" ++ host ++ "/" }

/-- The response `200 OK` with `X-Custom: v`, `Connection: close` and body `hello`. -/
def helloResponse : Response :=
  { Status := "200 OK", StatusCode := 200,
    Header := ⟨[("X-Custom", ["v"]), ("Connection", ["close"])], by decide⟩,
    Body := [104, 101, 108, 108, 111] }

/-- The response `200 OK` with body `hello` whose header map stores the keys `x-custom`
and `connection` in lower case. -/
def lowerKeyResponse : Response :=
  { Status := "200 OK", StatusCode := 200,
    Header := ⟨[("x-custom", ["v"]), ("connection", ["close"])], by decide⟩,
    Body := [104, 101, 108, 108, 111] }

/-- A `client.Do` that returns `lowerKeyResponse` for every request. -/
def lowerKeyClient (_ : Request) : Except String Response :=
  .ok lowerKeyResponse

/-- A network in which the host `down.example` refuses connections and every other
origin answers with `helloResponse`. -/
def exampleClient (req : Request) : Except String Response :=
  if req.URL.Host = "down.example" then .error "dial tcp: connection refused"
  else .ok helloResponse


/-! ## Facts about the map operations -/

theorem lookup_filter_ne (l : List (String × List String)) (k k' : String) :
    (l.filter (fun e => e.1 != k)).lookup k' = if k' = k then none else l.lookup k' := by
  induction l with
  | nil => simp
  | cons e l ih =>
    obtain ⟨a, b⟩ := e
    simp only [List.filter_cons]
    by_cases hak : a = k
    · subst hak
      have h1 : (a != a) = false := by simp
      rw [h1, if_neg (by simp), ih]
      by_cases hk : k' = a
      · simp [hk]
      · have h2 : (k' == a) = false := by simpa using hk
        simp [hk, List.lookup_cons, h2]
    · have h1 : (a != k) = true := by simpa using hak
      rw [h1, if_pos rfl]
      by_cases hka : k' = a
      · subst hka
        simp [List.lookup_cons, hak]
      · have h2 : (k' == a) = false := by simpa using hka
        simp [List.lookup_cons, h2, ih]

theorem Header.get_delete (h : Header) (k k' : String) :
    (h.delete k).get k' = if k' = k then none else h.get k' :=
  lookup_filter_ne h.entries k k'

theorem Header.get_assign (h : Header) (k : String) (vv : List String) (k' : String) :
    (h.assign k vv).get k' = if k' = k then some vv else h.get k' := by
  by_cases hk : k' = k
  · subst hk
    simp [Header.get, Header.assign]
  · have : (k' == k) = false := by simpa using hk
    have hd := Header.get_delete h k k'
    simp only [Header.get] at hd
    simp [Header.get, Header.assign, List.lookup_cons, this, hk, hd]

theorem Header.mem_keys_iff (h : Header) (k : String) : k ∈ h.keys ↔ h.get k ≠ none := by
  simp [Header.keys, Header.get, List.lookup_eq_none_iff]

theorem Header.get_empty (k : String) : Header.empty.get k = none := rfl


/-! ## Facts about canonical keys -/

theorem toNat_ofNat_small (n : Nat) (h : n < 55296) : (Char.ofNat n).toNat = n := by
  rw [Char.ofNat, dif_pos (Or.inl h)]; rfl

theorem char_le_iff (a b : Char) : a ≤ b ↔ a.toNat ≤ b.toNat := Iff.rfl

theorem char_eq_of_toNat {a b : Char} (h : a.toNat = b.toNat) : a = b := by
  rw [← Char.ofNat_toNat a, ← Char.ofNat_toNat b, h]

theorem canonLoop_cons (upper : Bool) (c : Char) (rest : List Char) :
    canonLoop upper (c :: rest) =
      canonStep upper c :: canonLoop (canonStep upper c == '-') rest := rfl

theorem asciiLower_upper {c : Char} (h : 65 ≤ c.toNat ∧ c.toNat ≤ 90) :
    asciiLower c = Char.ofNat (c.toNat + 32) := by
  have h1 : ('A' : Char).toNat = 65 := rfl
  have h2 : ('Z' : Char).toNat = 90 := rfl
  simp [asciiLower, char_le_iff, h1, h2, h]

theorem asciiLower_other {c : Char} (h : ¬ (65 ≤ c.toNat ∧ c.toNat ≤ 90)) :
    asciiLower c = c := by
  have h1 : ('A' : Char).toNat = 65 := rfl
  have h2 : ('Z' : Char).toNat = 90 := rfl
  simp only [asciiLower, char_le_iff, h1, h2, Bool.and_eq_true, decide_eq_true_eq]
  rw [if_neg h]

theorem canonStep_true {c : Char} :
    canonStep true c = if 97 ≤ c.toNat ∧ c.toNat ≤ 122 then Char.ofNat (c.toNat - 32) else c := by
  have h1 : ('a' : Char).toNat = 97 := rfl
  have h2 : ('z' : Char).toNat = 122 := rfl
  simp [canonStep, char_le_iff, h1, h2]

theorem canonStep_false {c : Char} :
    canonStep false c = if 65 ≤ c.toNat ∧ c.toNat ≤ 90 then Char.ofNat (c.toNat + 32) else c := by
  have h1 : ('A' : Char).toNat = 65 := rfl
  have h2 : ('Z' : Char).toNat = 90 := rfl
  simp [canonStep, char_le_iff, h1, h2]

theorem canonStep_false_eq (c : Char) : canonStep false c = asciiLower c := by
  rw [canonStep_false]
  by_cases h : 65 ≤ c.toNat ∧ c.toNat ≤ 90
  · rw [if_pos h, asciiLower_upper h]
  · rw [if_neg h, asciiLower_other h]

/-- Two characters with the same lower-case form are equal or the two cases of one letter. -/
theorem asciiLower_eq_cases {c d : Char} (h : asciiLower c = asciiLower d) :
    c = d ∨ (65 ≤ c.toNat ∧ c.toNat ≤ 90 ∧ d.toNat = c.toNat + 32) ∨
      (65 ≤ d.toNat ∧ d.toNat ≤ 90 ∧ c.toNat = d.toNat + 32) := by
  by_cases hc : 65 ≤ c.toNat ∧ c.toNat ≤ 90 <;> by_cases hd : 65 ≤ d.toNat ∧ d.toNat ≤ 90
  · rw [asciiLower_upper hc, asciiLower_upper hd] at h
    have := congrArg Char.toNat h
    rw [toNat_ofNat_small _ (by omega), toNat_ofNat_small _ (by omega)] at this
    exact Or.inl (char_eq_of_toNat (by omega))
  · rw [asciiLower_upper hc, asciiLower_other hd] at h
    have := congrArg Char.toNat h
    rw [toNat_ofNat_small _ (by omega)] at this
    exact Or.inr (Or.inl ⟨hc.1, hc.2, this.symm⟩)
  · rw [asciiLower_other hc, asciiLower_upper hd] at h
    have := congrArg Char.toNat h
    rw [toNat_ofNat_small _ (by omega)] at this
    exact Or.inr (Or.inr ⟨hd.1, hd.2, this⟩)
  · rw [asciiLower_other hc, asciiLower_other hd] at h
    exact Or.inl h

theorem canonStep_upper_lower {u : Bool} {c d : Char}
    (h : 65 ≤ c.toNat ∧ c.toNat ≤ 90 ∧ d.toNat = c.toNat + 32) :
    canonStep u c = canonStep u d := by
  obtain ⟨h1, h2, h3⟩ := h
  cases u
  · rw [canonStep_false, canonStep_false, if_pos ⟨h1, h2⟩, if_neg (by omega)]
    exact char_eq_of_toNat (by rw [toNat_ofNat_small _ (by omega)]; omega)
  · rw [canonStep_true, canonStep_true, if_neg (by omega), if_pos (by omega)]
    exact char_eq_of_toNat (by rw [toNat_ofNat_small _ (by omega)]; omega)

theorem canonStep_congr (u : Bool) {c d : Char} (h : asciiLower c = asciiLower d) :
    canonStep u c = canonStep u d := by
  rcases asciiLower_eq_cases h with h | h | h
  · rw [h]
  · exact canonStep_upper_lower h
  · exact (canonStep_upper_lower h).symm

theorem canonLoop_congr : ∀ (a b : List Char) (u : Bool),
    a.map asciiLower = b.map asciiLower → canonLoop u a = canonLoop u b
  | [], [], _, _ => rfl
  | [], _ :: _, _, h => by simp at h
  | _ :: _, [], _, h => by simp at h
  | c :: a, d :: b, u, h => by
    simp only [List.map_cons, List.cons.injEq] at h
    rw [canonLoop_cons, canonLoop_cons, canonStep_congr u h.1]
    rw [canonLoop_congr a b _ h.2]

theorem valid_congr {c d : Char} (h : asciiLower c = asciiLower d) :
    validHeaderFieldByte c = validHeaderFieldByte d := by
  rcases asciiLower_eq_cases h with h | ⟨h1, h2, h3⟩ | ⟨h1, h2, h3⟩
  · rw [h]
  · have hc : validHeaderFieldByte c = true := by
      simp only [validHeaderFieldByte, Bool.or_eq_true, Bool.and_eq_true, decide_eq_true_eq]
      omega
    have hd : validHeaderFieldByte d = true := by
      simp only [validHeaderFieldByte, Bool.or_eq_true, Bool.and_eq_true, decide_eq_true_eq]
      omega
    rw [hc, hd]
  · have hc : validHeaderFieldByte c = true := by
      simp only [validHeaderFieldByte, Bool.or_eq_true, Bool.and_eq_true, decide_eq_true_eq]
      omega
    have hd : validHeaderFieldByte d = true := by
      simp only [validHeaderFieldByte, Bool.or_eq_true, Bool.and_eq_true, decide_eq_true_eq]
      omega
    rw [hc, hd]

theorem all_valid_congr : ∀ (a b : List Char),
    a.map asciiLower = b.map asciiLower →
    a.all validHeaderFieldByte = b.all validHeaderFieldByte
  | [], [], _ => rfl
  | [], _ :: _, h => by simp at h
  | _ :: _, [], h => by simp at h
  | c :: a, d :: b, h => by
    simp only [List.map_cons, List.cons.injEq] at h
    simp only [List.all_cons]
    rw [valid_congr h.1, all_valid_congr a b h.2]

/-- The scanning loop either takes the slow path, or returns its argument, and then the
rest of the key is invalid or already in canonical form. -/
theorem canonScan_cases (s : List Char) : ∀ (rest : List Char) (u : Bool),
    canonScan s u rest = canonicalMIMEHeaderKey s ∨
      (canonScan s u rest = s ∧
        (rest.all validHeaderFieldByte = false ∨ canonLoop u rest = rest))
  | [], _ => Or.inr ⟨rfl, Or.inr rfl⟩
  | c :: rest, u => by
    by_cases hv : validHeaderFieldByte c = true
    · by_cases h1 : (u && 'a' ≤ c && c ≤ 'z') = true
      · left; simp only [canonScan, hv, h1]; simp
      · by_cases h2 : (!u && 'A' ≤ c && c ≤ 'Z') = true
        · left; simp only [canonScan, hv, h1, h2]; simp
        · have hs : canonScan s u (c :: rest) = canonScan s (c == '-') rest := by
            simp only [canonScan, hv, h1, h2]; simp
          have hc : canonStep u c = c := by
            simp only [canonStep, h1, h2]; simp
          rw [hs]
          rcases canonScan_cases s rest (c == '-') with h | ⟨h, h3⟩
          · exact Or.inl h
          · refine Or.inr ⟨h, ?_⟩
            rcases h3 with h3 | h3
            · left; simp [List.all_cons, h3]
            · right; rw [canonLoop_cons, hc, h3]
    · right
      refine ⟨by simp only [canonScan, hv]; simp, Or.inl ?_⟩
      simp only [List.all_cons]
      simp [hv]

theorem canonScan_eq (s : List Char) : canonScan s true s = canonicalMIMEHeaderKey s := by
  rcases canonScan_cases s s true with h | ⟨h, h3⟩
  · exact h
  · rw [h]
    rcases h3 with h3 | h3
    · simp [canonicalMIMEHeaderKey, h3]
    · simp only [canonicalMIMEHeaderKey, h3]; simp

/-- Names that agree up to ASCII case and consist of token characters have the same
canonical form. -/
theorem canonical_congr {a b : String} (h : AsciiEqualFold a b)
    (hb : b.data.all validHeaderFieldByte = true) :
    CanonicalMIMEHeaderKey a = CanonicalMIMEHeaderKey b := by
  have ha : a.data.all validHeaderFieldByte = true := by
    rw [all_valid_congr _ _ h]; exact hb
  simp only [CanonicalMIMEHeaderKey, canonScan_eq, canonicalMIMEHeaderKey, ha, hb, if_true]
  rw [canonLoop_congr _ _ _ h]


/-! ## Facts about `delHopHeaders` -/

theorem Header.ext_entries {a b : Header} (h : a.entries = b.entries) : a = b := by
  cases a; cases b; simp_all

theorem hopHeaders_canonical : ∀ n ∈ hopHeaders, CanonicalMIMEHeaderKey n = n := by
  decide

theorem foldl_Del_eq (ks : List String) (hks : ∀ n ∈ ks, CanonicalMIMEHeaderKey n = n) :
    ∀ h : Header, ks.foldl (fun hd n => hd.Del n) h = ks.foldl (fun hd n => hd.delete n) h := by
  induction ks with
  | nil => intro h; rfl
  | cons n ks ih =>
    intro h
    simp only [List.foldl_cons, Header.Del, hks n (List.mem_cons_self _ _)]
    exact ih (fun m hm => hks m (List.mem_cons_of_mem _ hm)) _

theorem entries_foldl_delete (ks : List String) :
    ∀ h : Header, (ks.foldl (fun hd n => hd.delete n) h).entries =
      h.entries.filter (fun e => decide (e.1 ∉ ks)) := by
  induction ks with
  | nil => intro h; simp
  | cons n ks ih =>
    intro h
    rw [List.foldl_cons, ih]
    show List.filter _ (List.filter _ h.entries) = _
    rw [List.filter_filter]
    congr 1
    funext e
    by_cases h1 : e.1 = n <;> by_cases h2 : e.1 ∈ ks <;> simp [h1, h2]

theorem entries_delHopHeaders (h : Header) :
    (delHopHeaders h).entries = h.entries.filter (fun e => decide (e.1 ∉ hopHeaders)) := by
  unfold delHopHeaders
  rw [foldl_Del_eq hopHeaders hopHeaders_canonical, entries_foldl_delete]

theorem lookup_filter_notMem (ks : List String) (l : List (String × List String)) (k : String) :
    (l.filter (fun e => decide (e.1 ∉ ks))).lookup k = if k ∈ ks then none else l.lookup k := by
  induction l with
  | nil => simp
  | cons e l ih =>
    obtain ⟨a, b⟩ := e
    simp only [List.filter_cons]
    by_cases ha : a ∈ ks
    · have h1 : decide (a ∉ ks) = false := by simpa using ha
      rw [h1, if_neg (by simp), ih]
      by_cases hk : k = a
      · subst hk; simp [ha]
      · have h2 : (k == a) = false := by simpa using hk
        simp [List.lookup_cons, h2]
    · have h1 : decide (a ∉ ks) = true := by simpa using ha
      rw [h1, if_pos rfl]
      by_cases hk : k = a
      · subst hk; simp [ha]
      · have h2 : (k == a) = false := by simpa using hk
        rw [List.lookup_cons, h2, ih, List.lookup_cons, h2]

theorem get_delHopHeaders (h : Header) (k : String) :
    (delHopHeaders h).get k = if k ∈ hopHeaders then none else h.get k := by
  simp only [Header.get, entries_delHopHeaders]
  exact lookup_filter_notMem hopHeaders h.entries k

theorem delHopHeaders_canonical {h : Header} (hc : h.Canonical) :
    (delHopHeaders h).Canonical := by
  intro k hk
  apply hc
  rw [Header.mem_keys_iff] at hk ⊢
  rw [get_delHopHeaders] at hk
  by_cases hm : k ∈ hopHeaders
  · simp [hm] at hk
  · simpa [hm] using hk


/-! ## Facts about `Add`, `copyHeader`, `strings.Join` and `io.Copy` -/

theorem Header.values_assign (h : Header) (k : String) (vv : List String) (k' : String) :
    (h.assign k vv).values k' = if k' = k then vv else h.values k' := by
  simp only [Header.values, Header.get_assign]
  split <;> rfl

theorem Header.values_Add (h : Header) (k v k' : String) (hk : CanonicalMIMEHeaderKey k = k) :
    (h.Add k v).values k' = if k' = k then h.values k ++ [v] else h.values k' := by
  simp only [Header.Add, hk, Header.values_assign]

theorem values_foldl_Add (k : String) (hk : CanonicalMIMEHeaderKey k = k) (k' : String) :
    ∀ (vv : List String) (d : Header),
      (vv.foldl (fun d v => d.Add k v) d).values k' =
        if k' = k then d.values k ++ vv else d.values k'
  | [], d => by
    by_cases h : k' = k
    · simp [h]
    · simp [h]
  | v :: vv, d => by
    rw [List.foldl_cons, values_foldl_Add k hk k' vv, Header.values_Add _ _ _ _ hk,
      Header.values_Add _ _ _ _ hk]
    by_cases h : k' = k
    · simp [h]
    · simp [h]

theorem values_foldl_copy (k' : String) :
    ∀ (l : List (String × List String)) (d : Header),
      (l.map Prod.fst).Nodup → (∀ k ∈ l.map Prod.fst, CanonicalMIMEHeaderKey k = k) →
      (l.foldl (fun d kv => kv.2.foldl (fun d v => d.Add kv.1 v) d) d).values k' =
        d.values k' ++ (l.lookup k').getD []
  | [], d, _, _ => by simp
  | (a, vv) :: l, d, hn, hc => by
    have hn2 : (l.map Prod.fst).Nodup := (List.nodup_cons.mp hn).2
    have ha : a ∉ l.map Prod.fst := (List.nodup_cons.mp hn).1
    have hca : CanonicalMIMEHeaderKey a = a := hc a (List.mem_cons_self _ _)
    rw [List.foldl_cons, values_foldl_copy k' l _ hn2
      (fun k hk => hc k (List.mem_cons_of_mem _ hk)), values_foldl_Add a hca k']
    by_cases h : k' = a
    · subst h
      have hl : l.lookup k' = none := by
        rw [List.lookup_eq_none_iff]
        intro p hp
        have hne : k' ≠ p.1 := fun he => ha (List.mem_map.mpr ⟨p, hp, he.symm⟩)
        simpa using hne
      simp [hl]
    · have h2 : (k' == a) = false := by simpa using h
      simp [h, List.lookup_cons, h2]

theorem values_copyHeader (dst src : Header) (hc : src.Canonical) (k : String) :
    (copyHeader dst src).values k = dst.values k ++ src.values k :=
  values_foldl_copy k src.entries dst src.nodup hc

theorem Join_append_singleton (a : String) (rest : List String) (s sep : String) :
    strings.Join ((a :: rest) ++ [s]) sep = strings.Join (a :: rest) sep ++ sep ++ s := by
  simp [strings.Join, List.foldl_append]

theorem Write_of_code (w : ResponseWriter) (c : Nat) (hw : w.code = some c) (p : List UInt8) :
    w.Write p = { w with body := w.body ++ p } := by
  simp [ResponseWriter.Write, hw]

theorem ioCopyLoop_of_code (buf : Nat) (hbuf : 0 < buf) (c : Nat) :
    ∀ (fuel : Nat) (w : ResponseWriter) (src : List UInt8),
      w.code = some c → src.length ≤ fuel →
      ioCopyLoop buf fuel w src = { w with body := w.body ++ src }
  | 0, w, src, _, hl => by
    have : src = [] := List.length_eq_zero.mp (Nat.le_zero.mp hl)
    subst this
    simp [ioCopyLoop]
  | fuel + 1, w, src, hw, hl => by
    cases src with
    | nil => simp [ioCopyLoop]
    | cons x xs =>
      have hlen : ((x :: xs).drop buf).length ≤ fuel := by
        rw [List.length_drop]
        simp only [List.length_cons] at hl ⊢
        omega
      have hw2 : (w.Write ((x :: xs).take buf)).code = some c := by
        rw [Write_of_code w c hw]; exact hw
      rw [ioCopyLoop, if_neg (by simp),
        ioCopyLoop_of_code buf hbuf c fuel _ _ hw2 hlen, Write_of_code w c hw]
      simp [List.append_assoc, List.take_append_drop]

theorem ioCopy_of_code (w : ResponseWriter) (c : Nat) (hw : w.code = some c)
    (src : List UInt8) : ioCopy w src = { w with body := w.body ++ src } :=
  ioCopyLoop_of_code 32768 (by decide) c src.length w src hw (Nat.le_refl _)

theorem xff_canonical : CanonicalMIMEHeaderKey "X-Forwarded-For" = "X-Forwarded-For" := by
  decide

theorem get_appendHost_ne (h : Header) (ip k : String) (hk : k ≠ "X-Forwarded-For") :
    (appendHostToXForwardHeader h ip).get k = h.get k := by
  simp only [appendHostToXForwardHeader, Header.Set, xff_canonical, Header.get_assign, if_neg hk]


/-! ## Canonical keys are what the `Header` methods store -/

theorem canonStep_idem (u : Bool) (c : Char) : canonStep u (canonStep u c) = canonStep u c := by
  cases u
  · rw [canonStep_false (c := c)]
    by_cases h : 65 ≤ c.toNat ∧ c.toNat ≤ 90
    · rw [if_pos h, canonStep_false, if_neg]
      rw [toNat_ofNat_small _ (by omega)]; omega
    · rw [if_neg h, canonStep_false, if_neg h]
  · rw [canonStep_true (c := c)]
    by_cases h : 97 ≤ c.toNat ∧ c.toNat ≤ 122
    · rw [if_pos h, canonStep_true, if_neg]
      rw [toNat_ofNat_small _ (by omega)]; omega
    · rw [if_neg h, canonStep_true, if_neg h]

theorem canonStep_valid (u : Bool) (c : Char) (hv : validHeaderFieldByte c = true) :
    validHeaderFieldByte (canonStep u c) = true := by
  cases u
  · rw [canonStep_false]
    by_cases h : 65 ≤ c.toNat ∧ c.toNat ≤ 90
    · rw [if_pos h]
      simp only [validHeaderFieldByte, Bool.or_eq_true, Bool.and_eq_true, decide_eq_true_eq]
      rw [toNat_ofNat_small _ (by omega)]; omega
    · rw [if_neg h]; exact hv
  · rw [canonStep_true]
    by_cases h : 97 ≤ c.toNat ∧ c.toNat ≤ 122
    · rw [if_pos h]
      simp only [validHeaderFieldByte, Bool.or_eq_true, Bool.and_eq_true, decide_eq_true_eq]
      rw [toNat_ofNat_small _ (by omega)]; omega
    · rw [if_neg h]; exact hv

theorem canonLoop_idem : ∀ (s : List Char) (u : Bool),
    canonLoop u (canonLoop u s) = canonLoop u s
  | [], _ => rfl
  | c :: s, u => by
    rw [canonLoop_cons, canonLoop_cons, canonStep_idem, canonLoop_idem s]

theorem canonLoop_valid : ∀ (s : List Char) (u : Bool),
    s.all validHeaderFieldByte = true → (canonLoop u s).all validHeaderFieldByte = true
  | [], _, _ => rfl
  | c :: s, u, h => by
    simp only [List.all_cons, Bool.and_eq_true] at h
    rw [canonLoop_cons, List.all_cons, canonStep_valid u c h.1, canonLoop_valid s _ h.2]
    rfl

/-- The key computed by `CanonicalMIMEHeaderKey` is in canonical form. -/
theorem CanonicalMIMEHeaderKey_idem (s : String) :
    CanonicalMIMEHeaderKey (CanonicalMIMEHeaderKey s) = CanonicalMIMEHeaderKey s := by
  simp only [CanonicalMIMEHeaderKey, canonScan_eq, canonicalMIMEHeaderKey]
  by_cases h : s.data.all validHeaderFieldByte = true
  · simp only [h, if_true, canonLoop_valid _ _ h, canonLoop_idem]
  · simp only [h]; simp [h]

theorem Header.Canonical_empty : Header.empty.Canonical := by
  intro k hk
  simp [Header.keys, Header.empty] at hk

theorem Header.Canonical_delete {h : Header} (hc : h.Canonical) (k : String) :
    (h.delete k).Canonical := by
  intro k' hk'
  apply hc
  rw [Header.mem_keys_iff] at hk' ⊢
  rw [Header.get_delete] at hk'
  by_cases hm : k' = k
  · rw [if_pos hm] at hk'; exact absurd rfl hk'
  · rw [if_neg hm] at hk'; exact hk'

theorem Header.Canonical_assign {h : Header} (hc : h.Canonical) {k : String}
    (hk : CanonicalMIMEHeaderKey k = k) (vv : List String) : (h.assign k vv).Canonical := by
  intro k' hk'
  by_cases hm : k' = k
  · rw [hm]; exact hk
  · apply hc
    rw [Header.mem_keys_iff] at hk' ⊢
    rw [Header.get_assign, if_neg hm] at hk'
    exact hk'

/-- The methods `Add`, `Set` and `Del` keep every key of the map in canonical form. -/
theorem Header.Canonical_methods {h : Header} (hc : h.Canonical) (k v : String) :
    (h.Add k v).Canonical ∧ (h.Set k v).Canonical ∧ (h.Del k).Canonical :=
  ⟨Header.Canonical_assign hc (CanonicalMIMEHeaderKey_idem k) _,
   Header.Canonical_assign hc (CanonicalMIMEHeaderKey_idem k) _,
   Header.Canonical_delete hc _⟩


/-! ## Facts shared by the statements below -/

theorem hopHeaders_fold_spec :
    ∀ m ∈ hopHeaders, ∃ n ∈ specHopNames, AsciiEqualFold m n := by
  decide

theorem specHopNames_canonical :
    ∀ n ∈ specHopNames,
      n.data.all validHeaderFieldByte = true ∧ CanonicalMIMEHeaderKey n ∈ hopHeaders := by
  decide

/-- A key in canonical form that matches a hop-by-hop name up to case is one of the
strings of `hopHeaders`. -/
theorem mem_hopHeaders_of_fold {k n : String} (hk : CanonicalMIMEHeaderKey k = k)
    (hn : n ∈ specHopNames) (hf : AsciiEqualFold k n) : k ∈ hopHeaders := by
  have h := specHopNames_canonical n hn
  rw [← hk, canonical_congr hf h.1]
  exact h.2

theorem values_delHopHeaders_fold (h : Header) (hc : h.Canonical) (k : String) :
    (delHopHeaders h).values k =
      if ∃ n ∈ specHopNames, AsciiEqualFold k n then [] else h.values k := by
  simp only [Header.values, get_delHopHeaders]
  by_cases hm : k ∈ hopHeaders
  · rw [if_pos hm, if_pos (hopHeaders_fold_spec k hm)]; rfl
  · rw [if_neg hm]
    by_cases hf : ∃ n ∈ specHopNames, AsciiEqualFold k n
    · rw [if_pos hf]
      obtain ⟨n, hn, hfn⟩ := hf
      have hnone : h.get k = none := by
        by_contra hne
        have hkey : k ∈ h.keys := (Header.mem_keys_iff h k).mpr hne
        exact hm (mem_hopHeaders_of_fold (hc k hkey) hn hfn)
      rw [hnone]; rfl
    · rw [if_neg hf]

theorem accepted_scheme {req : Request}
    (hs : req.URL.Scheme = "http" ∨ req.URL.Scheme = "https") :
    ¬ (req.URL.Scheme ≠ "http" ∧ req.URL.Scheme ≠ "https") := by
  rintro ⟨h1, h2⟩
  rcases hs with h | h
  · exact h1 h
  · exact h2 h

theorem httpError_code (w : ResponseWriter) (msg : String) (code : Nat)
    (hw : w.code = none) : (http.Error w msg code).code = some code := by
  simp [http.Error, ResponseWriter.WriteHeader, ResponseWriter.Write, hw]

/-! ## The claims -/

/-- C1: a request whose URL scheme is neither "http" nor "https" is answered with
status 400; `client.Do` is not called, the request object (its headers included) is
left as it was, and the process keeps running. -/
theorem ServeHTTP_rejects_other_scheme (client : Request → Except String Response)
    (wr : ResponseWriter) (req : Request) (hw : wr.code = none)
    (hs : req.URL.Scheme ≠ "http" ∧ req.URL.Scheme ≠ "https") :
    (proxy.ServeHTTP client wr req).wr.code = some 400 ∧
      (proxy.ServeHTTP client wr req).calls = [] ∧
      (proxy.ServeHTTP client wr req).req.Header = req.Header ∧
      (proxy.ServeHTTP client wr req).req = req ∧
      (proxy.ServeHTTP client wr req).exitCode = none := by
  have e : proxy.ServeHTTP client wr req =
      { wr := http.Error wr ("unsupported protocal scheme " ++ req.URL.Scheme) 400,
        req := req, calls := [],
        log := [LogEntry.request req.RemoteAddr req.Method req.URL] ++
          [LogEntry.message ("unsupported protocal scheme " ++ req.URL.Scheme)],
        exitCode := none, bodyClosed := false } := by
    simp only [proxy.ServeHTTP, if_pos hs]
  rw [e]
  exact ⟨httpError_code _ _ _ hw, rfl, rfl, rfl, rfl⟩

/-- C1, at the schemes "ftp", "ws" and the empty scheme of a relative URL. -/
theorem ServeHTTP_rejects_other_scheme_witness :
    (ResponseWriter.fresh.code = none ∧
      ((getRequest "ftp" "files.example" "203.0.113.5:54321" hdrMixed).URL.Scheme ≠ "http" ∧
       (getRequest "ftp" "files.example" "203.0.113.5:54321" hdrMixed).URL.Scheme ≠ "https")) ∧
    ((proxy.ServeHTTP exampleClient ResponseWriter.fresh
        (getRequest "ftp" "files.example" "203.0.113.5:54321" hdrMixed)).wr.code = some 400 ∧
      (proxy.ServeHTTP exampleClient ResponseWriter.fresh
        (getRequest "ftp" "files.example" "203.0.113.5:54321" hdrMixed)).calls = [] ∧
      (proxy.ServeHTTP exampleClient ResponseWriter.fresh
        (getRequest "ftp" "files.example" "203.0.113.5:54321" hdrMixed)).req.Header = hdrMixed ∧
      (proxy.ServeHTTP exampleClient ResponseWriter.fresh
        (getRequest "ftp" "files.example" "203.0.113.5:54321" hdrMixed)).req =
          getRequest "ftp" "files.example" "203.0.113.5:54321" hdrMixed ∧
      (proxy.ServeHTTP exampleClient ResponseWriter.fresh
        (getRequest "ftp" "files.example" "203.0.113.5:54321" hdrMixed)).exitCode = none) ∧
    (proxy.ServeHTTP exampleClient ResponseWriter.fresh
        (getRequest "ws" "chat.example" "203.0.113.5:54321" hdrPlain)).wr.code = some 400 ∧
    (proxy.ServeHTTP exampleClient ResponseWriter.fresh
        (getRequest "" "" "203.0.113.5:54321" hdrPlain)).wr.code = some 400 :=
  ⟨⟨rfl, by decide⟩,
   ServeHTTP_rejects_other_scheme exampleClient ResponseWriter.fresh
     (getRequest "ftp" "files.example" "203.0.113.5:54321" hdrMixed) rfl (by decide),
   by decide, by decide⟩

/-- C2 (the code at a failing origin): for a request to an origin that refuses the
connection the handler writes status 500 and then terminates the process with exit
code 1, so that of two requests only the first is dispatched, although the second,
sent alone, is answered with status 200. -/
theorem ServeHTTP_upstream_failure_exits :
    (proxy.ServeHTTP exampleClient ResponseWriter.fresh
        (getRequest "http" "down.example" "203.0.113.5:54321" hdrPlain)).wr.code = some 500 ∧
    (proxy.ServeHTTP exampleClient ResponseWriter.fresh
        (getRequest "http" "down.example" "203.0.113.5:54321" hdrPlain)).exitCode = some 1 ∧
    (ListenAndServe exampleClient
        [getRequest "http" "up.example" "198.51.100.7:4000" hdrPlain]).map
      (fun o => o.wr.code) = [some 200] ∧
    (ListenAndServe exampleClient
        [getRequest "http" "down.example" "203.0.113.5:54321" hdrPlain,
         getRequest "http" "up.example" "198.51.100.7:4000" hdrPlain]).map
      (fun o => o.wr.code) = [some 500] := by
  decide


/-- C3 (counterexample): a header map that stores the key "connection" in lower case
still contains it after `delHopHeaders`, although it matches the hop-by-hop name
"Connection" up to case. -/
theorem delHopHeaders_keeps_lowercase_key :
    "connection" ∈ (delHopHeaders hdrLowerConnection).keys ∧
      (delHopHeaders hdrLowerConnection).get "connection" = some ["close"] ∧
      "Connection" ∈ specHopNames ∧ AsciiEqualFold "connection" "Connection" := by
  decide

/-- C3 (amended): after `delHopHeaders` none of the eight strings of `hopHeaders` is a
key of the map, and every key that is not one of these eight strings is left with its
values (a key stored in another casing, such as "connection", among them); when every
key of the map is stored in canonical form, no key left matches one of the eight
hop-by-hop names up to case. -/
theorem delHopHeaders_removes_hop_names (h : Header) :
    (∀ n ∈ hopHeaders, (delHopHeaders h).get n = none) ∧
      (∀ k, k ∉ hopHeaders → (delHopHeaders h).get k = h.get k) ∧
      (h.Canonical →
        ∀ k ∈ (delHopHeaders h).keys, ∀ n ∈ specHopNames, ¬ AsciiEqualFold k n) := by
  refine ⟨fun n hn => by rw [get_delHopHeaders, if_pos hn],
    fun k hk => by rw [get_delHopHeaders, if_neg hk], ?_⟩
  intro hc k hk n hn hf
  have hk2 : k ∈ hopHeaders :=
    mem_hopHeaders_of_fold (delHopHeaders_canonical hc k hk) hn hf
  rw [Header.mem_keys_iff, get_delHopHeaders, if_pos hk2] at hk
  exact hk rfl

/-- C3 (amended), at a header map with canonical keys of which three are hop-by-hop. -/
theorem delHopHeaders_removes_hop_names_witness :
    hdrMixed.Canonical ∧
      (delHopHeaders hdrMixed).get "Connection" = none ∧
      (delHopHeaders hdrMixed).get "Te" = none ∧
      (delHopHeaders hdrMixed).keys = ["X-Custom"] ∧
      ¬ AsciiEqualFold "X-Custom" "Upgrade" :=
  have hc : hdrMixed.Canonical := by decide
  ⟨hc, (delHopHeaders_removes_hop_names hdrMixed).1 "Connection" (by decide),
    (delHopHeaders_removes_hop_names hdrMixed).1 "Te" (by decide), by decide,
    (delHopHeaders_removes_hop_names hdrMixed).2.2 hc "X-Custom" (by decide) "Upgrade"
      (by decide)⟩

/-- C4: `delHopHeaders` leaves every key that matches none of the eight hop-by-hop names
up to case with the value list it had (same values, same order), and every key of the
result was a key before. -/
theorem delHopHeaders_frame (h : Header) :
    (∀ k, (∀ n ∈ specHopNames, ¬ AsciiEqualFold k n) → (delHopHeaders h).get k = h.get k) ∧
      (∀ k, k ∈ (delHopHeaders h).keys → k ∈ h.keys) := by
  constructor
  · intro k hk
    rw [get_delHopHeaders, if_neg]
    intro hm
    obtain ⟨n, hn, hf⟩ := hopHeaders_fold_spec k hm
    exact hk n hn hf
  · intro k hk
    rw [Header.mem_keys_iff, get_delHopHeaders] at hk
    rw [Header.mem_keys_iff]
    by_cases hm : k ∈ hopHeaders
    · rw [if_pos hm] at hk; exact absurd rfl hk
    · rw [if_neg hm] at hk; exact hk

/-- C4, at the key `X-Custom` with two values. -/
theorem delHopHeaders_frame_witness :
    (∀ n ∈ specHopNames, ¬ AsciiEqualFold "X-Custom" n) ∧
      (delHopHeaders hdrMixed).get "X-Custom" = some ["v", "w"] ∧
      hdrMixed.get "X-Custom" = some ["v", "w"] ∧
      "X-Custom" ∈ (delHopHeaders hdrMixed).keys ∧ "X-Custom" ∈ hdrMixed.keys :=
  have hn : ∀ n ∈ specHopNames, ¬ AsciiEqualFold "X-Custom" n := by decide
  ⟨hn, ((delHopHeaders_frame hdrMixed).1 "X-Custom" hn).trans (by decide), by decide,
    by decide, (delHopHeaders_frame hdrMixed).2 "X-Custom" (by decide)⟩

/-- C8: `delHopHeaders` applied twice gives the same header map as applied once, and on a
map in which none of the strings of `hopHeaders` is a key it changes nothing. -/
theorem delHopHeaders_idempotent (h : Header) :
    delHopHeaders (delHopHeaders h) = delHopHeaders h ∧
      ((∀ n ∈ hopHeaders, h.get n = none) → delHopHeaders h = h) := by
  constructor
  · apply Header.ext_entries
    rw [entries_delHopHeaders, entries_delHopHeaders, List.filter_filter]
    congr 1
    funext e
    simp
  · intro hn
    apply Header.ext_entries
    rw [entries_delHopHeaders, List.filter_eq_self]
    intro e he
    have hk : e.1 ∈ h.keys := List.mem_map.mpr ⟨e, he, rfl⟩
    rw [Header.mem_keys_iff] at hk
    have : e.1 ∉ hopHeaders := fun hm => hk (hn e.1 hm)
    simpa using this

/-- C8, at a map with hop-by-hop keys and at a map without. -/
theorem delHopHeaders_idempotent_witness :
    (delHopHeaders (delHopHeaders hdrMixed)).entries = [("X-Custom", ["v", "w"])] ∧
      (delHopHeaders hdrMixed).entries = [("X-Custom", ["v", "w"])] ∧
      (∀ n ∈ hopHeaders, hdrPlain.get n = none) ∧ delHopHeaders hdrPlain = hdrPlain :=
  have hn : ∀ n ∈ hopHeaders, hdrPlain.get n = none := by decide
  ⟨(congrArg Header.entries (delHopHeaders_idempotent hdrMixed).1).trans (by decide),
    by decide, hn, (delHopHeaders_idempotent hdrPlain).2 hn⟩

/-- C5: when the map has no key `X-Forwarded-For`, `appendHostToXForwardHeader` stores
exactly the one value `ip` under `X-Forwarded-For` and leaves every other key as it was. -/
theorem appendHost_without_prior (h : Header) (ip : String)
    (hx : h.get "X-Forwarded-For" = none) :
    (appendHostToXForwardHeader h ip).get "X-Forwarded-For" = some [ip] ∧
      ∀ k, k ≠ "X-Forwarded-For" → (appendHostToXForwardHeader h ip).get k = h.get k := by
  refine ⟨?_, fun k hk => get_appendHost_ne h ip k hk⟩
  simp only [appendHostToXForwardHeader, hx, Header.Set, xff_canonical, Header.get_assign,
    if_true]

/-- C5, at the peer address 203.0.113.5:54321 and a map without `X-Forwarded-For`. -/
theorem appendHost_without_prior_witness :
    hdrPlain.get "X-Forwarded-For" = none ∧
      net.SplitHostPort "203.0.113.5:54321" = .ok ("203.0.113.5", "54321") ∧
      (appendHostToXForwardHeader hdrPlain "203.0.113.5").get "X-Forwarded-For" =
        some ["203.0.113.5"] ∧
      (appendHostToXForwardHeader hdrPlain "203.0.113.5").get "Accept" = some ["*/*"] :=
  ⟨by decide, by decide, (appendHost_without_prior hdrPlain "203.0.113.5" (by decide)).1,
    ((appendHost_without_prior hdrPlain "203.0.113.5" (by decide)).2 "Accept"
      (by decide)).trans (by decide)⟩

/-- C6 (counterexample): when `X-Forwarded-For` is present with an empty value list, the
value stored is ", 203.0.113.5", with the separator in front, and not the join of the
prior values followed by the address. -/
theorem appendHost_empty_prior_leading_separator :
    hdrEmptyXFF.get "X-Forwarded-For" = some [] ∧
      hdrEmptyXFF.values "X-Forwarded-For" = [] ∧
      (appendHostToXForwardHeader hdrEmptyXFF "203.0.113.5").get "X-Forwarded-For" =
        some [", 203.0.113.5"] ∧
      (appendHostToXForwardHeader hdrEmptyXFF "203.0.113.5").get "X-Forwarded-For" ≠
        some [strings.Join ([] ++ ["203.0.113.5"]) ", "] := by
  decide

/-- C6 (amended): when `X-Forwarded-For` is absent (no prior value) or present with at
least one value, `appendHostToXForwardHeader` stores a single value: the prior values
followed by `ip`, joined with ", "; every other key is left as it was. -/
theorem appendHost_joins_prior (h : Header) (prior : List String) (ip : String)
    (hp : (h.get "X-Forwarded-For" = some prior ∧ prior ≠ []) ∨
      (h.get "X-Forwarded-For" = none ∧ prior = [])) :
    (appendHostToXForwardHeader h ip).get "X-Forwarded-For" =
        some [strings.Join (prior ++ [ip]) ", "] ∧
      ∀ k, k ≠ "X-Forwarded-For" → (appendHostToXForwardHeader h ip).get k = h.get k := by
  refine ⟨?_, fun k hk => get_appendHost_ne h ip k hk⟩
  rcases hp with ⟨hp, hne⟩ | ⟨hp, hnil⟩
  · cases prior with
    | nil => exact absurd rfl hne
    | cons a rest =>
      rw [Join_append_singleton]
      simp only [appendHostToXForwardHeader, hp, Header.Set, xff_canonical,
        Header.get_assign, if_true]
  · subst hnil
    simp only [appendHostToXForwardHeader, hp, Header.Set, xff_canonical,
      Header.get_assign, if_true]
    rfl

/-- C6 (amended), at the prior value 10.0.0.1 and the address 203.0.113.5. -/
theorem appendHost_joins_prior_witness :
    ((hdrPriorXFF.get "X-Forwarded-For" = some ["10.0.0.1"] ∧ ["10.0.0.1"] ≠ []) ∨
      (hdrPriorXFF.get "X-Forwarded-For" = none ∧ ["10.0.0.1"] = [])) ∧
      (appendHostToXForwardHeader hdrPriorXFF "203.0.113.5").get "X-Forwarded-For" =
        some ["10.0.0.1, 203.0.113.5"] :=
  ⟨by decide,
    ((appendHost_joins_prior hdrPriorXFF ["10.0.0.1"] "203.0.113.5" (by decide)).1).trans
      (by decide)⟩


theorem hopHeaders_not_xff : ∀ m ∈ hopHeaders, ¬ AsciiEqualFold m "X-Forwarded-For" := by
  decide

theorem ServeHTTP_ok_eq (client : Request → Except String Response) (wr : ResponseWriter)
    (req : Request) (resp : Response)
    (hs : req.URL.Scheme = "http" ∨ req.URL.Scheme = "https")
    (hc : client (outboundRequest req) = .ok resp) :
    proxy.ServeHTTP client wr req =
      { wr := ioCopy (ResponseWriter.WriteHeader
            { wr with header := copyHeader wr.header (delHopHeaders resp.Header) }
            resp.StatusCode) resp.Body,
        req := outboundRequest req, calls := [outboundRequest req],
        log := [LogEntry.request req.RemoteAddr req.Method req.URL] ++
          [LogEntry.status (outboundRequest req).RemoteAddr resp.Status],
        exitCode := none, bodyClosed := true } := by
  simp only [proxy.ServeHTTP, if_neg (accepted_scheme hs), hc]

theorem ServeHTTP_calls (client : Request → Except String Response) (wr : ResponseWriter)
    (req : Request) (hs : req.URL.Scheme = "http" ∨ req.URL.Scheme = "https") :
    (proxy.ServeHTTP client wr req).calls = [outboundRequest req] ∧
      (proxy.ServeHTTP client wr req).req = outboundRequest req := by
  simp only [proxy.ServeHTTP, if_neg (accepted_scheme hs)]
  cases client (outboundRequest req) <;> exact ⟨rfl, rfl⟩

/-- C7 (counterexample): when the response that `client.Do` returns stores the keys
`x-custom` and `connection` in lower case, the hop-by-hop header reaches the caller
(under the key `Connection`, with its value), and the key `x-custom` of the response is
not a key of the caller's header map, which holds `X-Custom` in its place. -/
theorem ServeHTTP_relays_lowercase_hop_header :
    (getRequest "http" "up.example" "203.0.113.5:54321" hdrPlain).URL.Scheme = "http" ∧
    (∃ n ∈ specHopNames, AsciiEqualFold "connection" n) ∧
    lowerKeyResponse.Header.values "connection" = ["close"] ∧
    (proxy.ServeHTTP lowerKeyClient ResponseWriter.fresh
      (getRequest "http" "up.example" "203.0.113.5:54321" hdrPlain)).wr.code = some 200 ∧
    (proxy.ServeHTTP lowerKeyClient ResponseWriter.fresh
      (getRequest "http" "up.example" "203.0.113.5:54321" hdrPlain)).wr.sent.values
        "Connection" = ["close"] ∧
    (¬ ∃ n ∈ specHopNames, AsciiEqualFold "x-custom" n) ∧
    lowerKeyResponse.Header.values "x-custom" = ["v"] ∧
    (proxy.ServeHTTP lowerKeyClient ResponseWriter.fresh
      (getRequest "http" "up.example" "203.0.113.5:54321" hdrPlain)).wr.sent.values
        "x-custom" = [] ∧
    (proxy.ServeHTTP lowerKeyClient ResponseWriter.fresh
      (getRequest "http" "up.example" "203.0.113.5:54321" hdrPlain)).wr.sent.values
        "X-Custom" = ["v"] := by
  decide

/-- C7 (amended): when `client.Do` returns a response (for the zero client the response
it ends with, after the redirects it follows), the caller's response carries the status
code and the body of that response, byte for byte, whatever the length of the body; the
status written is that of the response (not the 200 that a body write before
`WriteHeader` would fix) and the headers sent are those in place at that moment.  When
every key of the response's header map is stored in canonical form, the headers sent are
those of the response without the hop-by-hop ones: every other key with the values of
the response, in order. -/
theorem ServeHTTP_relays_response (client : Request → Except String Response)
    (req : Request) (resp : Response)
    (hs : req.URL.Scheme = "http" ∨ req.URL.Scheme = "https")
    (hc : client (outboundRequest req) = .ok resp) :
    (proxy.ServeHTTP client ResponseWriter.fresh req).wr.code = some resp.StatusCode ∧
      (proxy.ServeHTTP client ResponseWriter.fresh req).wr.body = resp.Body ∧
      (proxy.ServeHTTP client ResponseWriter.fresh req).wr.header =
        (proxy.ServeHTTP client ResponseWriter.fresh req).wr.sent ∧
      (proxy.ServeHTTP client ResponseWriter.fresh req).exitCode = none ∧
      (resp.Header.Canonical →
        ∀ k, (proxy.ServeHTTP client ResponseWriter.fresh req).wr.sent.values k =
          if ∃ n ∈ specHopNames, AsciiEqualFold k n then [] else resp.Header.values k) := by
  rw [ServeHTTP_ok_eq client _ req resp hs hc]
  have hw : (ResponseWriter.WriteHeader
      { ResponseWriter.fresh with
        header := copyHeader ResponseWriter.fresh.header (delHopHeaders resp.Header) }
      resp.StatusCode) =
      { header := copyHeader Header.empty (delHopHeaders resp.Header),
        code := some resp.StatusCode,
        sent := copyHeader Header.empty (delHopHeaders resp.Header), body := [] } := rfl
  rw [hw, ioCopy_of_code _ resp.StatusCode rfl]
  refine ⟨rfl, by simp, rfl, rfl, ?_⟩
  intro hk k
  show (copyHeader Header.empty (delHopHeaders resp.Header)).values k = _
  rw [values_copyHeader _ _ (delHopHeaders_canonical hk), values_delHopHeaders_fold _ hk]
  simp [Header.values, Header.get_empty]

/-- C7 (amended), at the response 200 with `X-Custom: v`, `Connection: close` and body
"hello". -/
theorem ServeHTTP_relays_response_witness :
    ((getRequest "http" "up.example" "203.0.113.5:54321" hdrPlain).URL.Scheme = "http" ∧
      exampleClient
        (outboundRequest (getRequest "http" "up.example" "203.0.113.5:54321" hdrPlain)) =
          .ok helloResponse ∧
      helloResponse.Header.Canonical) ∧
    (proxy.ServeHTTP exampleClient ResponseWriter.fresh
      (getRequest "http" "up.example" "203.0.113.5:54321" hdrPlain)).wr.code = some 200 ∧
    (proxy.ServeHTTP exampleClient ResponseWriter.fresh
      (getRequest "http" "up.example" "203.0.113.5:54321" hdrPlain)).wr.body =
        [104, 101, 108, 108, 111] ∧
    (proxy.ServeHTTP exampleClient ResponseWriter.fresh
      (getRequest "http" "up.example" "203.0.113.5:54321" hdrPlain)).wr.sent.values
        "X-Custom" = ["v"] ∧
    (proxy.ServeHTTP exampleClient ResponseWriter.fresh
      (getRequest "http" "up.example" "203.0.113.5:54321" hdrPlain)).wr.sent.values
        "Connection" = [] :=
  have hk : helloResponse.Header.Canonical := by decide
  have t := ServeHTTP_relays_response exampleClient
    (getRequest "http" "up.example" "203.0.113.5:54321" hdrPlain) helloResponse
    (Or.inl rfl) rfl
  ⟨⟨rfl, rfl, hk⟩, t.1, t.2.1, (t.2.2.2.2 hk "X-Custom").trans (by decide),
    (t.2.2.2.2 hk "Connection").trans (by decide)⟩

/-- C9: when `RemoteAddr` cannot be split into host and port, the request is still
passed to `client.Do`, and every key that is `X-Forwarded-For` up to case has in the
outbound request the value list it had in the inbound one (absent stays absent). -/
theorem ServeHTTP_unparsable_peer (client : Request → Except String Response)
    (wr : ResponseWriter) (req : Request) (e : AddrError)
    (hs : req.URL.Scheme = "http" ∨ req.URL.Scheme = "https")
    (he : net.SplitHostPort req.RemoteAddr = .error e) :
    (proxy.ServeHTTP client wr req).calls = [outboundRequest req] ∧
      (outboundRequest req).Header = delHopHeaders req.Header ∧
      ∀ k, AsciiEqualFold k "X-Forwarded-For" →
        (outboundRequest req).Header.get k = req.Header.get k := by
  have ho : (outboundRequest req).Header = delHopHeaders req.Header := by
    simp only [outboundRequest, he]
  refine ⟨(ServeHTTP_calls client wr req hs).1, ho, ?_⟩
  intro k hk
  rw [ho, get_delHopHeaders, if_neg]
  intro hm
  exact hopHeaders_not_xff k hm hk

/-- C9, at a peer address without a port, with and without a prior header. -/
theorem ServeHTTP_unparsable_peer_witness :
    ((getRequest "http" "up.example" "@" hdrPriorXFF).URL.Scheme = "http" ∧
      net.SplitHostPort (getRequest "http" "up.example" "@" hdrPriorXFF).RemoteAddr =
        .error .missingPort) ∧
    (proxy.ServeHTTP exampleClient ResponseWriter.fresh
      (getRequest "http" "up.example" "@" hdrPriorXFF)).calls =
        [outboundRequest (getRequest "http" "up.example" "@" hdrPriorXFF)] ∧
    (outboundRequest (getRequest "http" "up.example" "@" hdrPriorXFF)).Header.get
      "X-Forwarded-For" = some ["10.0.0.1"] ∧
    (outboundRequest (getRequest "http" "up.example" "localhost" hdrPlain)).Header.get
      "X-Forwarded-For" = none :=
  have t := ServeHTTP_unparsable_peer exampleClient ResponseWriter.fresh
    (getRequest "http" "up.example" "@" hdrPriorXFF) .missingPort (Or.inl rfl) (by decide)
  ⟨⟨rfl, by decide⟩, t.1, (t.2.2 "X-Forwarded-For" (by decide)).trans (by decide),
    by decide⟩

/-- C10: for an accepted scheme `client.Do` is called once, with the request object
itself; it has the method, URL and body of the inbound request (and every other field
but two); `RequestURI` is empty, and the header map is that of the inbound request
after `delHopHeaders` and, when the peer address splits, after
`appendHostToXForwardHeader` with the peer's host: apart from `X-Forwarded-For`, the
strings of `hopHeaders` are absent and every other key has its inbound values. -/
theorem ServeHTTP_outbound_request (client : Request → Except String Response)
    (wr : ResponseWriter) (req : Request)
    (hs : req.URL.Scheme = "http" ∨ req.URL.Scheme = "https") :
    (proxy.ServeHTTP client wr req).calls = [outboundRequest req] ∧
      (proxy.ServeHTTP client wr req).req = outboundRequest req ∧
      (outboundRequest req).Method = req.Method ∧
      (outboundRequest req).URL = req.URL ∧
      (outboundRequest req).Body = req.Body ∧
      outboundRequest req =
        { req with RequestURI := "", Header := (outboundRequest req).Header } ∧
      (outboundRequest req).Header =
        (match net.SplitHostPort req.RemoteAddr with
          | .ok (clientIP, _) =>
            appendHostToXForwardHeader (delHopHeaders req.Header) clientIP
          | .error _ => delHopHeaders req.Header) ∧
      ∀ k, k ≠ "X-Forwarded-For" →
        (outboundRequest req).Header.get k =
          if k ∈ hopHeaders then none else req.Header.get k := by
  have hh : (outboundRequest req).Header =
      (match net.SplitHostPort req.RemoteAddr with
        | .ok (clientIP, _) =>
          appendHostToXForwardHeader (delHopHeaders req.Header) clientIP
        | .error _ => delHopHeaders req.Header) := by
    simp only [outboundRequest]
    cases net.SplitHostPort req.RemoteAddr <;> rfl
  have hf : outboundRequest req =
      { req with RequestURI := "", Header := (outboundRequest req).Header } := by
    simp only [outboundRequest]
    cases net.SplitHostPort req.RemoteAddr <;> rfl
  refine ⟨(ServeHTTP_calls client wr req hs).1, (ServeHTTP_calls client wr req hs).2,
    ?_, ?_, ?_, hf, hh, ?_⟩
  · rw [hf]
  · rw [hf]
  · rw [hf]
  · intro k hk
    rw [hh]
    cases net.SplitHostPort req.RemoteAddr with
    | error e => exact get_delHopHeaders _ _
    | ok p => exact (get_appendHost_ne _ _ _ hk).trans (get_delHopHeaders _ _)

/-- C10, at a request with hop-by-hop headers from the peer 203.0.113.5:54321. -/
theorem ServeHTTP_outbound_request_witness :
    (getRequest "https" "up.example" "203.0.113.5:54321" hdrMixed).URL.Scheme = "https" ∧
    (proxy.ServeHTTP exampleClient ResponseWriter.fresh
      (getRequest "https" "up.example" "203.0.113.5:54321" hdrMixed)).calls =
        [outboundRequest (getRequest "https" "up.example" "203.0.113.5:54321" hdrMixed)] ∧
    (outboundRequest (getRequest "https" "up.example" "203.0.113.5:54321" hdrMixed)).Method
      = "GET" ∧
    (outboundRequest
      (getRequest "https" "up.example" "203.0.113.5:54321" hdrMixed)).RequestURI = "" ∧
    (outboundRequest
      (getRequest "https" "up.example" "203.0.113.5:54321" hdrMixed)).Header.entries =
        [("X-Forwarded-For", ["203.0.113.5"]), ("X-Custom", ["v", "w"])] :=
  have t := ServeHTTP_outbound_request exampleClient ResponseWriter.fresh
    (getRequest "https" "up.example" "203.0.113.5:54321" hdrMixed) (Or.inr rfl)
  ⟨rfl, t.1, t.2.2.1.trans rfl, by decide, by decide⟩

end HttpGo
